import Mathlib

/-!
Verification development for the iVAE repository (`lib/models.py`).

The file shallowly embeds the parts of the source that the claims are
about:

* the `MLP` class — its constructor (argument normalisation, the
  activation-function list, the linear-layer list) and its `forward`
  loop, including the Python failure modes (`ValueError`,
  `AttributeError`, `IndexError`, `TypeError`) as an `Except` monad;
* a shape-level model of `torch` broadcasting, `squeeze`, `cat` and the
  linear layers, used for the shape contract of `iVAE.forward`;
* the log-density formulas of the diagonal `Normal`, full-covariance
  `Normal` and `Laplace` distributions over real tensors;
* the `iVAE` parameter heads (`encoder_params`, `prior_params`) and the
  dataflow of `forward` / `elbo`.

Machine floats are modelled as real numbers; pseudo-random draws are
modelled by threading the noise source explicitly.
-/

/-- Python exception kinds that the modelled code can raise. -/
inductive PyErr where
  | valueError
  | attributeError
  | indexError
  | typeError
deriving DecidableEq, Repr

/-- A dynamically typed value stored in the `hidden_dim` attribute: the
source can leave either ints (the intended layer widths) or strings (after
the `self.hidden_dim = activation` assignment) in that list. -/
inductive PyVal where
  | int (n : ℕ)
  | str (s : String)
deriving DecidableEq, Repr

/-- The `hidden_dim` constructor argument of `MLP.__init__`: a number, a
list (of numbers), or any other Python value. -/
inductive HiddenArg where
  | num (n : ℕ)
  | list (l : List ℕ)
  | other

/-- The `activation` constructor argument of `MLP.__init__`: a string, a
list (of strings), or any other Python value. -/
inductive ActArg where
  | str (s : String)
  | list (l : List String)
  | other

/-- A vector value (one example, feature dimension = list length). -/
def Vec : Type := List ℝ

/-- One `nn.Linear(inF, outF)` layer: weight matrix `w` and bias `b`
(entries beyond the declared dimensions are irrelevant).  `apply`
computes `y i = (sum over j < inF of w i j * x j) + b i`. -/
structure Linear where
  inF : ℕ
  outF : ℕ
  w : ℕ → ℕ → ℝ
  b : ℕ → ℝ

/-- Forward application of a linear layer, `y = W x + b`. -/
noncomputable def Linear.apply (L : Linear) (x : Vec) : Vec :=
  (List.range L.outF).map fun i =>
    (∑ j ∈ Finset.range L.inF, L.w i j * x.getD j 0) + L.b i

/-- Model of `F.leaky_relu(x, negative_slope=slope)`. -/
noncomputable def leaky_relu (slope x : ℝ) : ℝ :=
  if 0 ≤ x then x else slope * x

/-- Model of `MLP.xtanh`: `x.tanh() + alpha * x`. -/
noncomputable def xtanh (alpha x : ℝ) : ℝ :=
  Real.tanh x + alpha * x

/-- Model of `F.sigmoid`: the logistic function. -/
noncomputable def sigmoid (x : ℝ) : ℝ :=
  1 / (1 + Real.exp (-x))

/-- The `self._act_f` building loop of `MLP.__init__` (lines 112-123):
each recognised name appends its function; an unrecognised name falls
into the `else` branch, which only CONSTRUCTS `ValueError(...)` without
raising it, so nothing is appended and the loop continues. -/
noncomputable def buildActs (slope : ℝ) : List String → List (ℝ → ℝ)
  | [] => []
  | a :: rest =>
    if a = "lrelu" then leaky_relu slope :: buildActs slope rest
    else if a = "xtanh" then xtanh slope :: buildActs slope rest
    else if a = "sigmoid" then sigmoid :: buildActs slope rest
    else if a = "none" then (fun x => x) :: buildActs slope rest
    else buildActs slope rest

/-- Reading `self.hidden_dim[i]` and passing it to `nn.Linear`: an
out-of-range index raises `IndexError`; a string entry makes `nn.Linear`
raise `TypeError`. -/
def getPy (l : List PyVal) (i : ℕ) : Except PyErr ℕ :=
  match l[i]? with
  | none => .error .indexError
  | some (.int n) => .ok n
  | some (.str _) => .error .typeError

/-- Build the `nn.Linear` at position `ℓ` of the `_fc_list`, drawing its
weights and bias from the supplied (random) sources `W`, `Bv`. -/
def mkLinear (inF outF ℓ : ℕ) (W : ℕ → ℕ → ℕ → ℝ) (Bv : ℕ → ℕ → ℝ) : Linear :=
  { inF := inF, outF := outF, w := W ℓ, b := Bv ℓ }

/-- The middle-layer loop of `MLP.__init__` (line 129-130): for `i` in
`range(1, n_layers - 1)` append `nn.Linear(hidden_dim[i-1], hidden_dim[i])`. -/
def mkMid (hd : List PyVal) (W : ℕ → ℕ → ℕ → ℝ) (Bv : ℕ → ℕ → ℝ)
    (i stop : ℕ) : Except PyErr (List Linear) :=
  if _h : i < stop then do
    let a ← getPy hd (i - 1)
    let b ← getPy hd i
    let rest ← mkMid hd W Bv (i + 1) stop
    .ok (mkLinear a b i W Bv :: rest)
  else .ok []
termination_by stop - i

/-- The `_fc_list` construction of `MLP.__init__` (lines 125-131). -/
def mkFcList (input_dim output_dim : ℕ) (hd : List PyVal) (n_layers : ℕ)
    (W : ℕ → ℕ → ℕ → ℝ) (Bv : ℕ → ℕ → ℝ) : Except PyErr (List Linear) :=
  if n_layers = 1 then .ok [mkLinear input_dim output_dim 0 W Bv]
  else do
    let h0 ← getPy hd 0
    let mid ← mkMid hd W Bv 1 (n_layers - 1)
    let hl ← getPy hd (n_layers - 2)
    .ok (mkLinear input_dim h0 0 W Bv :: (mid ++ [mkLinear hl output_dim (n_layers - 1) W Bv]))

/-- The state of a constructed `MLP` module.  `activation` is `none` when
the attribute `self.activation` was never assigned (list-valued
`activation` argument). -/
structure MLP where
  input_dim : ℕ
  output_dim : ℕ
  n_layers : ℕ
  hidden_dim : List PyVal
  activation : Option (List String)
  act_f : List (ℝ → ℝ)
  fc : List Linear
  slope : ℝ

/-- Model of `MLP.__init__` (lines 93-132), with the layer weights drawn from the
explicit sources `W`, `Bv`.  Faithful points: the `hidden_dim` branch
(lines 98-103) raises `ValueError` on a non-number, non-list argument;
the `activation` branch (lines 105-110) assigns `self.activation` only
in the string case — in the list case the SOURCE assigns the list to
`self.hidden_dim` (line 108) and leaves `self.activation` unset, so the
following `for act in self.activation` loop raises `AttributeError`. -/
noncomputable def MLP.init (input_dim output_dim : ℕ) (hidden : HiddenArg)
    (n_layers : ℕ) (act : ActArg) (slope : ℝ)
    (W : ℕ → ℕ → ℕ → ℝ) (Bv : ℕ → ℕ → ℝ) : Except PyErr MLP := do
  let hd0 : List PyVal ←
    match hidden with
    | .num h => .ok (List.replicate (n_layers - 1) (.int h))
    | .list l => .ok (l.map .int)
    | .other => .error .valueError
  let hdAct : List PyVal × Option (List String) ←
    match act with
    | .str s => .ok (hd0, some (List.replicate (n_layers - 1) s))
    | .list l => .ok (l.map PyVal.str, none)
    | .other => .error .valueError
  let acts : List (ℝ → ℝ) ←
    match hdAct.2 with
    | none => .error .attributeError
    | some names => .ok (buildActs slope names)
  let fc ← mkFcList input_dim output_dim hdAct.1 n_layers W Bv
  .ok { input_dim := input_dim, output_dim := output_dim, n_layers := n_layers,
        hidden_dim := hdAct.1, activation := hdAct.2, act_f := acts, fc := fc,
        slope := slope }

/-- The body of the `for c in range(self.n_layers)` loop of `MLP.forward`
(lines 139-146), starting at index `c`.  List accesses are the Python
subscripts `self._act_f[c]` and `self.fc[c]`; in CPython the callee
`self._act_f[c]` is evaluated before its argument `self.fc[c](h)`, so the
activation subscript is checked first. -/
noncomputable def MLP.forwardAux (m : MLP) (h : Vec) (c : ℕ) : Except PyErr Vec :=
  if _hc : c < m.n_layers then
    if c = m.n_layers - 1 then
      match m.fc[c]? with
      | none => .error .indexError
      | some L => m.forwardAux (L.apply h) (c + 1)
    else
      match m.act_f[c]? with
      | none => .error .indexError
      | some a =>
        match m.fc[c]? with
        | none => .error .indexError
        | some L => m.forwardAux ((L.apply h).map a) (c + 1)
  else .ok h
termination_by m.n_layers - c

/-- Model of `MLP.forward(x)`: run the layer loop from `c = 0`. -/
noncomputable def MLP.forward (m : MLP) (x : Vec) : Except PyErr Vec :=
  m.forwardAux x 0

/-- Reference composition: apply the linear layers in order, following
each one except the last by its elementwise activation; the last layer's
output is returned raw. -/
noncomputable def applyLayers : List Linear → List (ℝ → ℝ) → Vec → Vec
  | [], _, h => h
  | L :: _, [], h => L.apply h
  | L :: Ls, a :: as, h => applyLayers Ls as ((L.apply h).map a)

/-! ## Shape-level model of the tensor operations used by `iVAE.forward`

Shapes are lists of dimension sizes, leading dimension first, following
`torch.Size`. -/

/-- Shape of `Tensor.squeeze()` with no argument: it removes EVERY dimension of size 1. -/
def squeezeShape (s : List ℕ) : List ℕ :=
  s.filter (fun d => d ≠ 1)

/-- Broadcasting of two shapes, processed from the trailing dimension
(inputs are reversed shapes): missing dimensions are padded, equal sizes
kept, a size-1 dimension expands to the other size, anything else fails. -/
def bcastRev : List ℕ → List ℕ → Option (List ℕ)
  | [], t => some t
  | a :: s, [] => some (a :: s)
  | a :: s, b :: t =>
    if a = b then (bcastRev s t).map (fun r => a :: r)
    else if a = 1 then (bcastRev s t).map (fun r => b :: r)
    else if b = 1 then (bcastRev s t).map (fun r => a :: r)
    else none

/-- Shape of the result of a broadcast elementwise operation (torch
semantics, right-aligned). -/
def broadcastShape (s t : List ℕ) : Option (List ℕ) :=
  (bcastRev s.reverse t.reverse).map List.reverse

/-- Shape behaviour of an `MLP` from `inF` to `outF` features: linear
layers act on the last dimension, so the input's last dimension must be
`inF` and it is replaced by `outF`. -/
def mlpShape (inF outF : ℕ) (s : List ℕ) : Option (List ℕ) :=
  if s.getLast? = some inF then some (s.dropLast ++ [outF]) else none

/-- Shape of `torch.cat((x, u), 1)` for two rank-2 tensors: leading dimensions
must agree, feature dimensions add. -/
def catShape2 : List ℕ → List ℕ → Option (List ℕ)
  | [b1, d1], [b2, d2] => if b1 = b2 then some [b1, d1 + d2] else none
  | _, _ => none

/-- Shape of `Normal.sample(mu, v)` (lines 34-37): the base distribution
`dist.normal.Normal(zeros(1), ones(1))` sampled with `sample_shape =
mu.size()` yields shape `mu.size() + (1,)`; `.squeeze()` then strips ALL
size-1 dimensions; `eps.mul(v.sqrt())` and `.add(mu)` broadcast. -/
def normalSampleShape (muS vS : List ℕ) : Option (List ℕ) :=
  (broadcastShape (squeezeShape (muS ++ [1])) vS).bind
    (fun s1 => broadcastShape s1 muS)

/-- The shapes produced by one `iVAE.forward(x, u)` call. -/
structure ForwardShapes where
  decLoc : List ℕ
  decScale : List ℕ
  encLoc : List ℕ
  encScale : List ℕ
  z : List ℕ
  priLoc : List ℕ
  priScale : List ℕ
deriving DecidableEq, Repr

/-- Shape-level model of `iVAE.forward(x, u)` (lines 216-221) with
`x : (bsz, dataD)`, `u : (bsz, auxD)` and the default diagonal-Normal
encoder: `prior_params` sends `u` through the `logl` MLP (aux → latent)
and exponentiates elementwise (`prior_mean` is `zeros(1)`, shape `[1]`);
`encoder_params` concatenates along dim 1 and applies the `g` / `logv`
MLPs; `z` is sampled by `Normal.sample`; `decoder_params` applies the
`f` MLP (latent → data) to `z` (`decoder_var` has shape `[1]`). -/
def iVAEForwardShapes (bsz dataD auxD latentD : ℕ) : Option ForwardShapes := do
  let pScale ← mlpShape auxD latentD [bsz, auxD]
  let xu ← catShape2 [bsz, dataD] [bsz, auxD]
  let eLoc ← mlpShape (dataD + auxD) latentD xu
  let eScale ← mlpShape (dataD + auxD) latentD xu
  let zS ← normalSampleShape eLoc eScale
  let dLoc ← mlpShape latentD dataD zS
  some { decLoc := dLoc, decScale := [1], encLoc := eLoc, encScale := eScale,
         z := zS, priLoc := [1], priScale := pScale }

/-! ## Log-density formulas -/

/-- A batched tensor of `B` examples with `D` features. -/
def BT (B D : ℕ) : Type := Fin B → Fin D → ℝ

namespace NormalDist

/-- Model of `Normal.log_pdf(x, mu, v)` (line 41): elementwise
`-0.5 * (log(2π) + log v + (x - mu)^2 / v)`, then `.sum(dim=-1)`; the
constant `self.c` is `2π`.  Batched over the leading dimension. -/
noncomputable def log_pdf {B D : ℕ} (x mu v : BT B D) : Fin B → ℝ :=
  fun bIdx => ∑ d, -0.5 * (Real.log (2 * Real.pi) + Real.log (v bIdx d)
    + (x bIdx d - mu bIdx d) ^ 2 / v bIdx d)

/-- Model of `Normal.log_pdf_full(x, mu, v)` (lines 43-57) for one example of the
batch: `cov` is the einsum `bik,bjk->bij` of the factor `L` with itself,
`inv_cov` its matrix inverse, `logabsdets` the log-absolute-determinant
from `torch.slogdet`, and the result is
`-0.5 * (d*log(2π) + logabsdet + xmuᵀ Σ⁻¹ xmu)`. -/
noncomputable def log_pdf_full {D : ℕ} (x mu : Fin D → ℝ)
    (L : Matrix (Fin D) (Fin D) ℝ) : ℝ :=
  let cov : Matrix (Fin D) (Fin D) ℝ := fun i j => ∑ k, L i k * L j k
  let inv_cov := cov⁻¹
  let c : ℝ := (D : ℝ) * Real.log (2 * Real.pi)
  let logabsdet : ℝ := Real.log |cov.det|
  let xmu : Fin D → ℝ := fun i => x i - mu i;
  -0.5 * (c + logabsdet + ∑ i, ∑ j, xmu i * inv_cov i j * xmu j)

end NormalDist

namespace LaplaceDist

/-- Model of `Laplace.log_pdf(x, mu, b)` (line 89): elementwise
`-log(2b) - |x - mu| / b`, then `.sum(dim=-1)`. -/
noncomputable def log_pdf {B D : ℕ} (x mu bp : BT B D) : Fin B → ℝ :=
  fun bIdx => ∑ d, (-Real.log (2 * bp bIdx d) - |x bIdx d - mu bIdx d| / bp bIdx d)

end LaplaceDist

/-! ## iVAE parameter heads and ELBO dataflow -/

/-- Model of `torch.cat((x, u), 1)` on values: features of `x` first, then of `u`. -/
def catDim1 {B Dx Du : ℕ} (x : BT B Dx) (u : BT B Du) : BT B (Dx + Du) :=
  fun bIdx => Fin.addCases (x bIdx) (u bIdx)

/-- Model of `iVAE.encoder_params(x, u)` (lines 202-206): concatenate `x` and `u`
along dim 1, return `(g(xu), logv(xu).exp())`, where `g` and `logv` are
the encoder networks. -/
noncomputable def encoderParams {B Dx Du Dz : ℕ}
    (g logv : BT B (Dx + Du) → BT B Dz) (x : BT B Dx) (u : BT B Du) :
    BT B Dz × BT B Dz :=
  let xu := catDim1 x u
  (g xu, fun bIdx d => Real.exp (logv xu bIdx d))

/-- Model of `iVAE.prior_params(u)` (lines 212-214): return
`(prior_mean, logl(u).exp())`; `prior_mean` is the fixed `zeros(1)`. -/
noncomputable def priorParams {B Du Dz : ℕ}
    (logl : BT B Du → BT B Dz) (u : BT B Du) :
    (Fin 1 → ℝ) × BT B Dz :=
  (fun _ => 0, fun bIdx d => Real.exp (logl u bIdx d))

/-- The `iVAE` model as used by `forward` / `elbo`: the three pluggable
distribution objects (`log_pdf`, and the encoder's `sample` with its
internal randomness threaded as an explicit noise value `ω : Ω`), and the
three parameter heads.  `X`, `U`, `Z` are the data, auxiliary and latent
tensor types; `DP`, `EP`, `PP` the decoder / encoder / prior parameter
tuples; `B` the batch size. -/
structure IVAEModel (X U Z DP EP PP Ω : Type) (B : ℕ) where
  prior_params : U → PP
  encoder_params : X → U → EP
  decoder_params : Z → DP
  encoder_sample : EP → Ω → Z
  decoder_logpdf : X → DP → Fin B → ℝ
  encoder_logpdf : Z → EP → Fin B → ℝ
  prior_logpdf : Z → PP → Fin B → ℝ

/-- Model of `iVAE.forward(x, u)` (lines 216-221): prior params from `u`, encoder
params from `(x, u)`, sample `z` from the encoder distribution with those
params, decoder params from `z`; return
`(decoder_params, encoder_params, z, prior_params)`. -/
def IVAEModel.forward {X U Z DP EP PP Ω : Type} {B : ℕ}
    (M : IVAEModel X U Z DP EP PP Ω B) (x : X) (u : U) (ω : Ω) :
    DP × EP × Z × PP :=
  let prior_params := M.prior_params u
  let encoder_params := M.encoder_params x u
  let z := M.encoder_sample encoder_params ω
  let decoder_params := M.decoder_params z
  (decoder_params, encoder_params, z, prior_params)

/-- Model of `.mean()` of a `(B,)` tensor: the sum over the batch divided by `B`. -/
noncomputable def batchMean {B : ℕ} (f : Fin B → ℝ) : ℝ :=
  (∑ bIdx, f bIdx) / B

/-- Model of `iVAE.elbo(x, u)` (lines 223-228): call `forward`, evaluate the three
log-densities on its outputs, return
`((log_px_z + log_pz_u - log_qz_xu).mean(), z)`. -/
noncomputable def IVAEModel.elbo {X U Z DP EP PP Ω : Type} {B : ℕ}
    (M : IVAEModel X U Z DP EP PP Ω B) (x : X) (u : U) (ω : Ω) : ℝ × Z :=
  let r := M.forward x u ω
  let decoder_params := r.1
  let encoder_params := r.2.1
  let z := r.2.2.1
  let prior_params := r.2.2.2
  let log_px_z := M.decoder_logpdf x decoder_params
  let log_qz_xu := M.encoder_logpdf z encoder_params
  let log_pz_u := M.prior_logpdf z prior_params
  (batchMean (fun bIdx => log_px_z bIdx + log_pz_u bIdx - log_qz_xu bIdx), z)

/-! ## Example instances used by witnesses -/

/-- A concrete 1×1 linear layer. -/
noncomputable def linearExample : Linear :=
  { inF := 1, outF := 1, w := fun _ _ => 0, b := fun _ => 0 }

/-- A concrete well-formed two-layer MLP state. -/
noncomputable def mlpExample : MLP :=
  { input_dim := 1, output_dim := 1, n_layers := 2, hidden_dim := [PyVal.int 1],
    activation := some ["none"], act_f := [fun y => y],
    fc := [linearExample, linearExample], slope := 0.1 }

/-! ## Theorems -/

/-- C1: `iVAE.elbo(x, u)` returns the pair whose first component is the
batch mean of `log_px_z + log_pz_u - log_qz_xu`, where the three
log-densities are `decoder_dist.log_pdf(x, *decoder_params)`,
`prior_dist.log_pdf(z, *prior_params)` and
`encoder_dist.log_pdf(z, *encoder_params)`, all evaluated on the
parameter triple and the sample `z` produced by the same `forward(x, u)`
call, and whose second component is that `z`. -/
theorem ivae_elbo_decomposition {X U Z DP EP PP Ω : Type} {B : ℕ}
    (M : IVAEModel X U Z DP EP PP Ω B) (x : X) (u : U) (ω : Ω) :
    M.elbo x u ω =
      (batchMean (fun bIdx =>
          M.decoder_logpdf x
            (M.decoder_params (M.encoder_sample (M.encoder_params x u) ω)) bIdx
        + M.prior_logpdf (M.encoder_sample (M.encoder_params x u) ω)
            (M.prior_params u) bIdx
        - M.encoder_logpdf (M.encoder_sample (M.encoder_params x u) ω)
            (M.encoder_params x u) bIdx),
       M.encoder_sample (M.encoder_params x u) ω) := rfl

/-- C2: for `v` strictly positive elementwise, the diagonal Normal
`log_pdf(x, mu, v)` is, per example,
`-0.5 * sum_d [log(2π) + log(v_d) + (x_d - mu_d)^2 / v_d]`, summed over
the feature dimension and batched over the leading dimension. -/
theorem normal_log_pdf_formula {B D : ℕ} (x mu v : BT B D) (bIdx : Fin B)
    (hv : ∀ b d, 0 < v b d) :
    NormalDist.log_pdf x mu v bIdx =
      -0.5 * ∑ d, (Real.log (2 * Real.pi) + Real.log (v bIdx d)
        + (x bIdx d - mu bIdx d) ^ 2 / v bIdx d) := by
  unfold NormalDist.log_pdf
  rw [Finset.mul_sum]

/-- Witness for C2 at `B = D = 1`, `x = mu = 0`, `v = 1`. -/
theorem normal_log_pdf_formula_witness :
    (∀ (b : Fin 1) (d : Fin 1), (0 : ℝ) < (fun _ _ => 1 : BT 1 1) b d)
    ∧ NormalDist.log_pdf (fun _ _ => 0) (fun _ _ => 0) (fun _ _ => 1 : BT 1 1) 0 =
      -0.5 * ∑ d : Fin 1, (Real.log (2 * Real.pi)
        + Real.log ((fun _ _ => 1 : BT 1 1) 0 d)
        + ((fun _ _ => 0 : BT 1 1) 0 d - (fun _ _ => 0 : BT 1 1) 0 d) ^ 2
          / (fun _ _ => 1 : BT 1 1) 0 d) :=
  ⟨fun _ _ => one_pos,
   normal_log_pdf_formula (fun _ _ => 0) (fun _ _ => 0) (fun _ _ => 1) 0
     (fun _ _ => one_pos)⟩

/-- C3: the scale component returned by `iVAE.encoder_params(x, u)` is the
elementwise exponential of the `logv` network output on `cat((x, u), 1)`,
and the scale component returned by `iVAE.prior_params(u)` is the
elementwise exponential of the `logl` network output on `u`; both are
strictly positive in every coordinate, for every raw network output. -/
theorem scale_params_exp_positive {B Dx Du Dz : ℕ}
    (g logv : BT B (Dx + Du) → BT B Dz) (logl : BT B Du → BT B Dz)
    (x : BT B Dx) (u : BT B Du) (bIdx : Fin B) (d : Fin Dz) :
    (encoderParams g logv x u).2 bIdx d = Real.exp (logv (catDim1 x u) bIdx d)
    ∧ 0 < (encoderParams g logv x u).2 bIdx d
    ∧ (priorParams logl u).2 bIdx d = Real.exp (logl u bIdx d)
    ∧ 0 < (priorParams logl u).2 bIdx d :=
  ⟨rfl, Real.exp_pos _, rfl, Real.exp_pos _⟩

/-- C8: for `b` strictly positive elementwise, the Laplace
`log_pdf(x, mu, b)` is, per example,
`sum_d [-log(2 b_d) - |x_d - mu_d| / b_d]`, summed over the feature
dimension. -/
theorem laplace_log_pdf_formula {B D : ℕ} (x mu bp : BT B D) (bIdx : Fin B)
    (hb : ∀ b d, 0 < bp b d) :
    LaplaceDist.log_pdf x mu bp bIdx =
      ∑ d, (-Real.log (2 * bp bIdx d) - |x bIdx d - mu bIdx d| / bp bIdx d) := rfl

/-- Witness for C8 at `B = D = 1`, `x = mu = 0`, `b = 1`. -/
theorem laplace_log_pdf_formula_witness :
    (∀ (b : Fin 1) (d : Fin 1), (0 : ℝ) < (fun _ _ => 1 : BT 1 1) b d)
    ∧ LaplaceDist.log_pdf (fun _ _ => 0) (fun _ _ => 0) (fun _ _ => 1 : BT 1 1) 0 =
      ∑ d : Fin 1, (-Real.log (2 * (fun _ _ => 1 : BT 1 1) 0 d)
        - |(fun _ _ => 0 : BT 1 1) 0 d - (fun _ _ => 0 : BT 1 1) 0 d|
          / (fun _ _ => 1 : BT 1 1) 0 d) :=
  ⟨fun _ _ => one_pos,
   laplace_log_pdf_formula (fun _ _ => 0) (fun _ _ => 0) (fun _ _ => 1) 0
     (fun _ _ => one_pos)⟩

/-- C9: for strictly positive scale, the diagonal Normal and the Laplace
`log_pdf` are symmetric under swapping `x` and `mu`. -/
theorem log_pdf_swap_symmetric {B D : ℕ} (x mu s : BT B D) (bIdx : Fin B)
    (hs : ∀ b d, 0 < s b d) :
    NormalDist.log_pdf x mu s bIdx = NormalDist.log_pdf mu x s bIdx
    ∧ LaplaceDist.log_pdf x mu s bIdx = LaplaceDist.log_pdf mu x s bIdx := by
  constructor
  · unfold NormalDist.log_pdf
    refine Finset.sum_congr rfl fun d _ => ?_
    have h2 : (x bIdx d - mu bIdx d) ^ 2 = (mu bIdx d - x bIdx d) ^ 2 := by ring
    rw [h2]
  · unfold LaplaceDist.log_pdf
    refine Finset.sum_congr rfl fun d _ => ?_
    rw [abs_sub_comm]

/-- Witness for C9 at `B = D = 1`, `x = 0`, `mu = 1`, `s = 1`. -/
theorem log_pdf_swap_symmetric_witness :
    (∀ (b : Fin 1) (d : Fin 1), (0 : ℝ) < (fun _ _ => 1 : BT 1 1) b d)
    ∧ (NormalDist.log_pdf (fun _ _ => 0) (fun _ _ => 1) (fun _ _ => 1 : BT 1 1) 0 =
        NormalDist.log_pdf (fun _ _ => 1) (fun _ _ => 0) (fun _ _ => 1 : BT 1 1) 0
      ∧ LaplaceDist.log_pdf (fun _ _ => 0) (fun _ _ => 1) (fun _ _ => 1 : BT 1 1) 0 =
        LaplaceDist.log_pdf (fun _ _ => 1) (fun _ _ => 0) (fun _ _ => 1 : BT 1 1) 0) :=
  ⟨fun _ _ => one_pos,
   log_pdf_swap_symmetric (fun _ _ => 0) (fun _ _ => 1) (fun _ _ => 1) 0
     (fun _ _ => one_pos)⟩

/-- The layer loop stops once `c` reaches `n_layers`. -/
lemma forwardAux_stop (m : MLP) (h : Vec) (c : ℕ) (hc : ¬ c < m.n_layers) :
    m.forwardAux h c = .ok h := by
  rw [MLP.forwardAux, dif_neg hc]

/-- Loop step at the last index: apply the linear layer raw. -/
lemma forwardAux_last_step (m : MLP) (h : Vec) (c : ℕ) (hc : c < m.n_layers)
    (hl : c = m.n_layers - 1) (L : Linear) (hL : m.fc[c]? = some L) :
    m.forwardAux h c = m.forwardAux (L.apply h) (c + 1) := by
  rw [MLP.forwardAux, dif_pos hc, if_pos hl, hL]

/-- Loop step at a non-last index: linear layer then elementwise activation. -/
lemma forwardAux_mid_step (m : MLP) (h : Vec) (c : ℕ) (hc : c < m.n_layers)
    (hl : ¬ c = m.n_layers - 1) (a : ℝ → ℝ) (ha : m.act_f[c]? = some a)
    (L : Linear) (hL : m.fc[c]? = some L) :
    m.forwardAux h c = m.forwardAux ((L.apply h).map a) (c + 1) := by
  rw [MLP.forwardAux, dif_pos hc, if_neg hl, ha, hL]

/-- Loop step at a non-last index with no activation available: the
subscript `self._act_f[c]` is out of range. -/
lemma forwardAux_act_missing (m : MLP) (h : Vec) (c : ℕ) (hc : c < m.n_layers)
    (hl : ¬ c = m.n_layers - 1) (ha : m.act_f[c]? = none) :
    m.forwardAux h c = .error .indexError := by
  rw [MLP.forwardAux, dif_pos hc, if_neg hl, ha]

/-- The layer loop from position `c` computes the reference composition of
the remaining layers and activations. -/
lemma forwardAux_applyLayers (m : MLP)
    (hfc : m.fc.length = m.n_layers) (hact : m.act_f.length = m.n_layers - 1) :
    ∀ k c h, m.n_layers - c = k → c < m.n_layers →
      m.forwardAux h c = .ok (applyLayers (m.fc.drop c) (m.act_f.drop c) h) := by
  intro k
  induction k with
  | zero => intro c h hk hc; omega
  | succ k ih =>
    intro c h hk hc
    have hcfc : c < m.fc.length := by omega
    have hdropfc : m.fc.drop c = m.fc[c] :: m.fc.drop (c + 1) :=
      List.drop_eq_getElem_cons hcfc
    by_cases hlast : c = m.n_layers - 1
    · have hactdrop : m.act_f.drop c = [] := List.drop_eq_nil_of_le (by omega)
      have hfcdrop2 : m.fc.drop (c + 1) = [] := List.drop_eq_nil_of_le (by omega)
      rw [forwardAux_last_step m h c hc hlast (m.fc[c])
        (List.getElem?_eq_getElem hcfc)]
      rw [forwardAux_stop m _ (c + 1) (by omega)]
      rw [hdropfc, hactdrop, hfcdrop2]
      rfl
    · have hcact : c < m.act_f.length := by omega
      have hdropact : m.act_f.drop c = m.act_f[c] :: m.act_f.drop (c + 1) :=
        List.drop_eq_getElem_cons hcact
      rw [forwardAux_mid_step m h c hc hlast (m.act_f[c])
        (List.getElem?_eq_getElem hcact) (m.fc[c]) (List.getElem?_eq_getElem hcfc)]
      rw [ih (c + 1) _ (by omega) (by omega)]
      rw [hdropfc, hdropact]
      rfl

/-- C4: for every MLP with `n_layers ≥ 1` whose layer lists are the ones
the constructor produces (`n_layers` linear layers, `n_layers - 1`
activations), `forward` applies exactly the `n_layers` linear transforms
in order, each except the last followed by its configured activation
applied elementwise, the last raw; with `n_layers = 1` it is a single
linear transform with no activation. -/
theorem mlp_forward_structure (m : MLP) (x : Vec)
    (hfc : m.fc.length = m.n_layers)
    (hact : m.act_f.length = m.n_layers - 1)
    (hn : 1 ≤ m.n_layers) :
    m.forward x = .ok (applyLayers m.fc m.act_f x)
    ∧ (m.n_layers = 1 → ∃ L, m.fc = [L] ∧ m.forward x = .ok (L.apply x)) := by
  have hmain : m.forward x = .ok (applyLayers m.fc m.act_f x) := by
    have := forwardAux_applyLayers m hfc hact m.n_layers 0 x (by omega) (by omega)
    simpa [MLP.forward] using this
  refine ⟨hmain, fun h1 => ?_⟩
  obtain ⟨L, hL⟩ := List.length_eq_one.mp (hfc.trans h1)
  have hactnil : m.act_f = [] := List.length_eq_zero.mp (by omega)
  refine ⟨L, hL, ?_⟩
  rw [hmain, hL, hactnil]
  rfl

/-- Witness for C4 on a concrete two-layer MLP. -/
theorem mlp_forward_structure_witness :
    (mlpExample.fc.length = mlpExample.n_layers)
    ∧ (mlpExample.act_f.length = mlpExample.n_layers - 1)
    ∧ (1 ≤ mlpExample.n_layers)
    ∧ (mlpExample.forward [1] = .ok (applyLayers mlpExample.fc mlpExample.act_f [1])
      ∧ (mlpExample.n_layers = 1 →
          ∃ L, mlpExample.fc = [L] ∧ mlpExample.forward [1] = .ok (L.apply [1]))) :=
  ⟨rfl, rfl, by decide,
   mlp_forward_structure mlpExample [1] rfl rfl (by decide)⟩

/-- An unsupported activation name appends nothing to `_act_f`: every
iteration falls into the `else` branch whose `ValueError(...)` is
constructed but never raised. -/
lemma buildActs_unsupported (slope : ℝ) (name : String)
    (hname : name ∉ ["lrelu", "xtanh", "sigmoid", "none"]) :
    ∀ k, buildActs slope (List.replicate k name) = [] := by
  simp only [List.mem_cons, List.not_mem_nil, or_false, not_or] at hname
  obtain ⟨h1, h2, h3, h4⟩ := hname
  intro k
  induction k with
  | zero => rfl
  | succ k ih =>
    rw [List.replicate_succ]
    simp only [buildActs, if_neg h1, if_neg h2, if_neg h3, if_neg h4]
    exact ih

/-- Indexing a replicated all-int `hidden_dim` in range succeeds. -/
lemma getPy_replicate (r hdim j : ℕ) (hj : j < r) :
    getPy (List.replicate r (PyVal.int hdim)) j = .ok hdim := by
  unfold getPy
  rw [List.getElem?_replicate, if_pos hj]

/-- The middle-layer loop succeeds on a replicated all-int `hidden_dim`. -/
lemma mkMid_replicate (r hdim : ℕ) (W : ℕ → ℕ → ℕ → ℝ) (Bv : ℕ → ℕ → ℝ) :
    ∀ k i stop, stop - i = k → stop ≤ r →
      ∃ ls, mkMid (List.replicate r (PyVal.int hdim)) W Bv i stop = .ok ls := by
  intro k
  induction k with
  | zero =>
    intro i stop hk hsr
    refine ⟨[], ?_⟩
    rw [mkMid, dif_neg (by omega)]
  | succ k ih =>
    intro i stop hk hsr
    have hi : i < stop := by omega
    obtain ⟨ls, hls⟩ := ih (i + 1) stop (by omega) hsr
    refine ⟨mkLinear hdim hdim i W Bv :: ls, ?_⟩
    rw [mkMid, dif_pos hi]
    rw [getPy_replicate r hdim (i - 1) (by omega), getPy_replicate r hdim i (by omega),
      hls]
    rfl

/-- The `_fc_list` construction succeeds on a replicated all-int
`hidden_dim` of length `n_layers - 1` when `n_layers ≥ 2`. -/
lemma mkFcList_replicate (input output hdim n : ℕ) (hn : 2 ≤ n)
    (W : ℕ → ℕ → ℕ → ℝ) (Bv : ℕ → ℕ → ℝ) :
    ∃ ls, mkFcList input output (List.replicate (n - 1) (PyVal.int hdim)) n W Bv
      = .ok ls := by
  obtain ⟨mid, hmid⟩ :=
    mkMid_replicate (n - 1) hdim W Bv (n - 1 - 1) 1 (n - 1) rfl (le_refl _)
  refine ⟨mkLinear input hdim 0 W Bv :: (mid ++ [mkLinear hdim output (n - 1) W Bv]), ?_⟩
  rw [mkFcList, if_neg (by omega)]
  rw [getPy_replicate (n - 1) hdim 0 (by omega), hmid,
    getPy_replicate (n - 1) hdim (n - 2) (by omega)]
  rfl

/-- C10: constructing an `MLP` with an activation NAME outside
`{lrelu, xtanh, sigmoid, none}` raises nothing (the `ValueError` on line
123 is constructed, not raised); the `_act_f` list ends up with fewer
entries than `n_layers - 1`, and for `n_layers ≥ 2` the failure surfaces
only later, as an out-of-range `self._act_f[c]` subscript in
`MLP.forward`. -/
theorem mlp_unsupported_activation_defers_failure
    (input output hdim n : ℕ) (name : String) (slope : ℝ)
    (W : ℕ → ℕ → ℕ → ℝ) (Bv : ℕ → ℕ → ℝ) (x : Vec)
    (hname : name ∉ ["lrelu", "xtanh", "sigmoid", "none"]) (hn : 2 ≤ n) :
    ∃ m : MLP,
      MLP.init input output (.num hdim) n (.str name) slope W Bv = .ok m
      ∧ m.act_f.length < n - 1
      ∧ m.forward x = .error .indexError := by
  obtain ⟨fcl, hfcl⟩ := mkFcList_replicate input output hdim n hn W Bv
  have hacts : buildActs slope (List.replicate (n - 1) name) = [] :=
    buildActs_unsupported slope name hname (n - 1)
  refine ⟨{ input_dim := input, output_dim := output, n_layers := n,
            hidden_dim := List.replicate (n - 1) (PyVal.int hdim),
            activation := some (List.replicate (n - 1) name),
            act_f := buildActs slope (List.replicate (n - 1) name),
            fc := fcl, slope := slope }, ?_, ?_, ?_⟩
  · have hinit : MLP.init input output (.num hdim) n (.str name) slope W Bv
        = Bind.bind (mkFcList input output (List.replicate (n - 1) (PyVal.int hdim)) n W Bv)
            (fun fc => Except.ok
              { input_dim := input, output_dim := output, n_layers := n,
                hidden_dim := List.replicate (n - 1) (PyVal.int hdim),
                activation := some (List.replicate (n - 1) name),
                act_f := buildActs slope (List.replicate (n - 1) name),
                fc := fc, slope := slope }) := rfl
    rw [hinit, hfcl]
    rfl
  · show (buildActs slope (List.replicate (n - 1) name)).length < n - 1
    rw [hacts]
    simp only [List.length_nil]
    omega
  · show MLP.forwardAux _ x 0 = .error .indexError
    apply forwardAux_act_missing
    · show 0 < n
      omega
    · show ¬ 0 = n - 1
      omega
    · show (buildActs slope (List.replicate (n - 1) name))[0]? = none
      rw [hacts]
      rfl

/-- Witness for C10 at `name = "relu"`, `n_layers = 2`. -/
theorem mlp_unsupported_activation_defers_failure_witness :
    ("relu" ∉ ["lrelu", "xtanh", "sigmoid", "none"]) ∧ (2 ≤ 2)
    ∧ (∃ m : MLP,
        MLP.init 1 1 (.num 5) 2 (.str "relu") 0.1 (fun _ _ _ => 0) (fun _ _ => 0)
          = .ok m
        ∧ m.act_f.length < 2 - 1
        ∧ m.forward [] = .error .indexError) :=
  ⟨by decide, by decide,
   mlp_unsupported_activation_defers_failure 1 1 5 2 "relu" 0.1
     (fun _ _ _ => 0) (fun _ _ => 0) [] (by decide) (by decide)⟩

/-- C5 (code bug): constructing an `MLP` with a LIST-valued `activation`
argument does not complete: line 108 of the source assigns the list to
`self.hidden_dim` instead of `self.activation`, so the subsequent
`for act in self.activation` loop raises `AttributeError` — not the
documented configuration `ValueError`, and not a successful
construction.  Evaluated at the concrete input
`MLP(1, 1, hidden_dim=5, n_layers=2, activation=['lrelu'])`. -/
theorem mlp_list_activation_attribute_error :
    MLP.init 1 1 (.num 5) 2 (.list ["lrelu"]) 0.1
      (fun _ _ _ => 0) (fun _ _ => 0) = .error .attributeError
    ∧ Except.error PyErr.attributeError ≠
        (Except.error PyErr.valueError : Except PyErr MLP) :=
  ⟨rfl, fun h => by injection h with h2; exact PyErr.noConfusion h2⟩

/-- C6 (code bug): with `batch = 2` and `latent_dim = 1` the encoder
sample `z` of `iVAE.forward` has shape `(2, 2)`, not `(2, 1)`:
`Normal.sample`'s argumentless `squeeze()` drops the size-1 latent
dimension from `eps`, and the subsequent broadcasts blow the shape up to
`(batch, batch)`; the forward pass then fails inside the decoder MLP,
whose linear layers need last dimension `latent_dim`.  At the spec's own
end-to-end configuration `(batch=5, latent=2, data=4, aux=3)` all shapes
are as claimed. -/
theorem ivae_forward_shape_latent_one_bug :
    normalSampleShape [2, 1] [2, 1] = some [2, 2]
    ∧ ([2, 2] : List ℕ) ≠ [2, 1]
    ∧ iVAEForwardShapes 2 4 3 1 = none
    ∧ iVAEForwardShapes 5 4 3 2 = some
        { decLoc := [5, 4], decScale := [1], encLoc := [5, 2],
          encScale := [5, 2], z := [5, 2], priLoc := [1], priScale := [5, 2] } := by
  refine ⟨by decide, by decide, by decide, by decide⟩

/-- A diagonal matrix is symmetric in its two indices. -/
lemma diagonal_symm {D : ℕ} (s : Fin D → ℝ) (j k : Fin D) :
    Matrix.diagonal s j k = Matrix.diagonal s k j := by
  by_cases h : j = k
  · subst h; rfl
  · rw [Matrix.diagonal_apply_ne _ h, Matrix.diagonal_apply_ne _ (Ne.symm h)]

/-- The einsum `bik,bjk->bij` of a diagonal factor with itself is the
diagonal matrix of squared entries. -/
lemma einsum_diag_cov {D : ℕ} (s : Fin D → ℝ) :
    (fun i j => ∑ k, Matrix.diagonal s i k * Matrix.diagonal s j k)
      = Matrix.diagonal (fun d => s d * s d) := by
  have h1 : (fun i j => ∑ k, Matrix.diagonal s i k * Matrix.diagonal s j k)
      = Matrix.diagonal s * Matrix.diagonal s := by
    funext i j
    rw [Matrix.mul_apply]
    exact Finset.sum_congr rfl fun k _ => by rw [diagonal_symm s j k]
  rw [h1, Matrix.diagonal_mul_diagonal]

/-- Unfolding of `log_pdf_full` to its explicit formula, with the einsum
covariance named `M`. -/
lemma log_pdf_full_expand {D : ℕ} (x mu : Fin D → ℝ)
    (L M : Matrix (Fin D) (Fin D) ℝ)
    (hM : M = fun i j => ∑ k, L i k * L j k) :
    NormalDist.log_pdf_full x mu L
      = -0.5 * ((D : ℝ) * Real.log (2 * Real.pi) + Real.log |M.det|
        + ∑ i, ∑ j, (x i - mu i) * (M⁻¹ i j) * (x j - mu j)) := by
  subst hM
  rfl

/-- C7: the full-covariance `log_pdf_full` agrees per example with the
diagonal `log_pdf` when the factor `L` is the diagonal matrix of
`sqrt(v)` and `v` is strictly positive elementwise. -/
theorem normal_log_pdf_full_diagonal {B D : ℕ} (x mu v : BT B D) (bIdx : Fin B)
    (hv : ∀ d, 0 < v bIdx d) :
    NormalDist.log_pdf_full (x bIdx) (mu bIdx)
      (Matrix.diagonal fun d => Real.sqrt (v bIdx d))
    = NormalDist.log_pdf x mu v bIdx := by
  have hsq : (fun d => Real.sqrt (v bIdx d) * Real.sqrt (v bIdx d)) = v bIdx := by
    funext d
    exact Real.mul_self_sqrt (le_of_lt (hv d))
  have hcov : (fun i j => ∑ k,
      Matrix.diagonal (fun d => Real.sqrt (v bIdx d)) i k
        * Matrix.diagonal (fun d => Real.sqrt (v bIdx d)) j k)
      = Matrix.diagonal (v bIdx) := by
    rw [einsum_diag_cov, hsq]
  rw [log_pdf_full_expand (x bIdx) (mu bIdx)
    (Matrix.diagonal fun d => Real.sqrt (v bIdx d)) (Matrix.diagonal (v bIdx))
    hcov.symm]
  have hprod : 0 < ∏ d, v bIdx d := Finset.prod_pos fun d _ => hv d
  have hinv : (Matrix.diagonal (v bIdx))⁻¹
      = Matrix.diagonal (fun d => (v bIdx d)⁻¹) := by
    apply Matrix.inv_eq_right_inv
    rw [Matrix.diagonal_mul_diagonal]
    rw [show (fun d => v bIdx d * (v bIdx d)⁻¹) = fun _ => (1 : ℝ) from
      funext fun d => mul_inv_cancel₀ (hv d).ne']
    exact Matrix.diagonal_one
  rw [Matrix.det_diagonal, abs_of_pos hprod,
    Real.log_prod Finset.univ _ (fun d _ => (hv d).ne'), hinv]
  have hquad : (∑ i, ∑ j, (x bIdx i - mu bIdx i)
      * (Matrix.diagonal (fun d => (v bIdx d)⁻¹) i j) * (x bIdx j - mu bIdx j))
      = ∑ i, (x bIdx i - mu bIdx i) ^ 2 / v bIdx i := by
    refine Finset.sum_congr rfl fun i _ => ?_
    rw [Finset.sum_eq_single i]
    · rw [Matrix.diagonal_apply_eq, div_eq_mul_inv]
      ring
    · intro j _ hj
      rw [Matrix.diagonal_apply_ne _ (Ne.symm hj)]
      ring
    · intro h
      exact absurd (Finset.mem_univ i) h
  rw [hquad]
  unfold NormalDist.log_pdf
  rw [← Finset.mul_sum]
  congr 1
  rw [Finset.sum_add_distrib, Finset.sum_add_distrib, Finset.sum_const,
    Finset.card_univ, Fintype.card_fin, nsmul_eq_mul]

/-- Witness for C7 at `B = D = 1`, `x = mu = 0`, `v = 1`. -/
theorem normal_log_pdf_full_diagonal_witness :
    (∀ d : Fin 1, (0 : ℝ) < (fun _ _ => 1 : BT 1 1) 0 d)
    ∧ NormalDist.log_pdf_full ((fun _ _ => 0 : BT 1 1) 0) ((fun _ _ => 0 : BT 1 1) 0)
        (Matrix.diagonal fun d => Real.sqrt ((fun _ _ => 1 : BT 1 1) 0 d))
      = NormalDist.log_pdf (fun _ _ => 0) (fun _ _ => 0) (fun _ _ => 1 : BT 1 1) 0 :=
  ⟨fun _ => one_pos,
   normal_log_pdf_full_diagonal (fun _ _ => 0) (fun _ _ => 0) (fun _ _ => 1) 0
     (fun _ => one_pos)⟩
